import Mathlib

/-!
Verification of the pdf-data-redactor repository (src/redactor.py and
src/redactor-tools.py) against its natural-language specification.

Python strings are modelled as lists of Unicode code points (`List Nat`).
Python's `str.lower`/`str.upper` are modelled by their ASCII restriction
(code-point-wise case mapping); Python's full Unicode case mapping is outside
the model.  External library calls (PyMuPDF `fitz`, the `re` module, the
external qpdf/ghostscript tools) are modelled by explicit Lean functions whose
doc comments state exactly which documented behaviour of the external call
they capture.
-/

namespace PDFRedactor

/-- A Python string as a list of Unicode code points. -/
abbrev PyStr := List Nat

/-- Encode a Lean string literal as a `PyStr` (for concrete test inputs). -/
def str2l (s : String) : PyStr := s.toList.map Char.toNat

/-- Model of Python `str.lower` on one code point (ASCII restriction). -/
def lowerN (c : Nat) : Nat := if 65 ≤ c ∧ c ≤ 90 then c + 32 else c

/-- Model of Python `str.upper` on one code point (ASCII restriction). -/
def upperN (c : Nat) : Nat := if 97 ≤ c ∧ c ≤ 122 then c - 32 else c

/-- Model of Python `str.lower` (ASCII restriction, code-point-wise). -/
def lowerL (t : PyStr) : PyStr := t.map lowerN

/-- Model of Python `str.upper` (ASCII restriction, code-point-wise). -/
def upperL (t : PyStr) : PyStr := t.map upperN

/-- Model of Python `str.replace(find, repl)` (stdlib): replace every
non-overlapping occurrence of `find`, scanning left to right, resuming the
scan just after each inserted replacement (the replacement is not re-scanned).
For `find = []` Python inserts `repl` before every character and once at the
end, which this definition also reproduces. -/
def pyReplace (find repl : PyStr) : PyStr → PyStr
  | [] => if find = [] then repl else []
  | c :: rest =>
    if find = [] then repl ++ c :: pyReplace find repl rest
    else if find.isPrefixOf (c :: rest) then
      repl ++ pyReplace find repl ((c :: rest).drop find.length)
    else
      c :: pyReplace find repl rest
termination_by t => t.length
decreasing_by
  · simp
  · rename_i h1 h2
    have hlen : 0 < find.length := List.length_pos.mpr h1
    simp [List.length_drop]
    omega

/-- Model of Python `str.find(needle)` on the string `hay` (stdlib): index of
the leftmost occurrence of `needle`, `none` for Python's `-1`.  `str.find`
with an empty needle returns the start position, which this reproduces. -/
def firstMatch (needle : PyStr) : PyStr → Option Nat
  | [] => if needle = [] then some 0 else none
  | c :: rest =>
    if needle.isPrefixOf (c :: rest) then some 0
    else (firstMatch needle rest).map (· + 1)

/-- The case-insensitive literal-replacement loop of
`PDFRedactor.process_text` (src/redactor.py lines 72-89, identical in
src/redactor-tools.py lines 76-101): repeatedly `find` the lowercased needle
in the lowercased text, copy the original-cased text between matches, emit
`repl` at each match, and resume just past the match (`last_pos = pos +
len(find_text)`).  The source expresses this with a single lowered copy of
the whole text and a running index `last_pos`; since lowering is
code-point-wise, searching the lowered suffix is the same as searching the
lowered whole from `last_pos`, which is the shape used here.  For
`find = ''` the Python loop does not terminate; the model returns the text
unchanged in that (spec-excluded: `find` non-empty) case. -/
def ciReplace (find repl : PyStr) (t : PyStr) : PyStr :=
  if h : find = [] then t
  else
    match hm : firstMatch (lowerL find) (lowerL t) with
    | none => t
    | some i => t.take i ++ repl ++ ciReplace find repl (t.drop (i + find.length))
termination_by t.length
decreasing_by
  have ht : t ≠ [] := by
    intro hnil
    rw [hnil] at hm
    simp [lowerL, firstMatch] at hm
    exact h hm.1
  have hlen : 0 < find.length := List.length_pos.mpr h
  have htlen : 0 < t.length := List.length_pos.mpr ht
  simp [List.length_drop]
  omega

/-- A replacement rule as stored by `add_replacement`
(src/redactor.py lines 30-37): the dict
`{'find': ..., 'replace': ..., 'regex': ..., 'caseInsensitive': ...}`. -/
structure Rule where
  find : PyStr
  replace : PyStr
  regex : Bool
  caseInsensitive : Bool
deriving DecidableEq, Repr

/-- `PDFRedactor.add_replacement` (src/redactor.py lines 30-37): appends the
rule dict to `self.replacements`; no validation of any kind is performed
(in particular a regex pattern is not compiled here). -/
def add_replacement (rules : List Rule) (find replace : PyStr)
    (is_regex : Bool) (case_insensitive : Bool) : List Rule :=
  rules ++ [⟨find, replace, is_regex, case_insensitive⟩]

/-- Model of `re.compile` validity (external Python `re` library), restricted
to the parenthesis-balance fragment: a pattern with an unmatched `(` or `)`
does not compile (e.g. `re.compile("(")` raises `re.error`).  Patterns used
in concrete theorems below stay inside this fragment (no escapes). -/
def parenOk : PyStr → Nat → Bool
  | [], 0 => true
  | [], _ + 1 => false
  | c :: rest, depth =>
    if c = 40 then parenOk rest (depth + 1)
    else if c = 41 then
      match depth with
      | 0 => false
      | d + 1 => parenOk rest d
    else parenOk rest depth

/-- Model of `re.compile` validity (external Python `re` library): see
`parenOk`. -/
def regexValid (p : PyStr) : Bool := parenOk p 0

/-- Model of `re.sub pattern repl text` (external Python `re` library),
restricted to patterns without metacharacters, where regex substitution
coincides with literal replacement of every non-overlapping occurrence.
No theorem below depends on the regex branch's matching behaviour — only on
its error behaviour (`regexValid`) and on the loop structure around it. -/
def reSub (pat repl t : PyStr) : PyStr := pyReplace pat repl t

/-- One iteration of the rule loop of `process_text`
(src/redactor.py lines 67-91): the regex branch calls `re.sub` (which first
compiles the pattern and raises `re.error` — modelled as `.error ()` — when
it is invalid), the case-insensitive literal branch runs the manual scan
loop, and the case-sensitive literal branch is `str.replace`. -/
def applyRule (r : Rule) (t : PyStr) : Except Unit PyStr :=
  if r.regex then
    if regexValid r.find then .ok (reSub r.find r.replace t) else .error ()
  else if r.caseInsensitive then .ok (ciReplace r.find r.replace t)
  else .ok (pyReplace r.find r.replace t)

/-- `PDFRedactor.process_text` (src/redactor.py lines 63-93, and identically
`PDFRedactorTools.process_text`, src/redactor-tools.py lines 67-105): starts
from the input text and applies every rule in list order, each rule operating
on the previous rule's output; an exception raised by `re.sub` aborts the
loop and propagates (`.error`). -/
def process_text (rules : List Rule) (t : PyStr) : Except Unit PyStr :=
  match rules with
  | [] => .ok t
  | r :: rest => (applyRule r t).bind (process_text rest)

/-! ### Configuration loading -/

/-- The JSON value in a replacements entry's `find` field, as discriminated
by `load_config` (src/redactor.py lines 45-49): a string, an array of
strings, or any other JSON value. -/
inductive FindVal where
  | fstr (s : PyStr)
  | farr (xs : List PyStr)
  | fother
deriving DecidableEq, Repr

/-- One parsed entry of the config file's `replacements` array, with the
defaulting of `rule.get('regex', False)` and `rule.get('caseInsensitive',
False)` already resolved. -/
structure ConfigEntry where
  find : FindVal
  replace : PyStr
  regex : Bool
  caseInsensitive : Bool
deriving DecidableEq, Repr

/-- The rules `PDFRedactor.load_config` appends for one well-formed entry
(src/redactor.py lines 45-57): a string `find` is wrapped into a singleton
list, then one rule per pattern is appended via `add_replacement`. -/
def entryRules (e : ConfigEntry) : List Rule :=
  match e.find with
  | .fstr s => [⟨s, e.replace, e.regex, e.caseInsensitive⟩]
  | .farr xs => xs.map fun p => ⟨p, e.replace, e.regex, e.caseInsensitive⟩
  | .fother => []

/-- `PDFRedactor.load_config` (src/redactor.py lines 39-57), restricted to
the `replacements` key: iterates the entries in order, mutating
`self.replacements` (threaded here as `rules`); a `find` that is neither a
string nor a list raises `ValueError`, which aborts the loop — earlier
appends survive in `self.replacements`, and nothing is appended for the bad
entry or the remaining ones.  Returns the rule list together with `true`
when the `ValueError` was raised. -/
def load_config (entries : List ConfigEntry) (rules : List Rule) :
    List Rule × Bool :=
  match entries with
  | [] => (rules, false)
  | e :: rest =>
    match e.find with
    | .fstr s =>
      load_config rest
        (add_replacement rules s e.replace e.regex e.caseInsensitive)
    | .farr xs =>
      load_config rest
        (xs.foldl (fun acc p =>
          add_replacement acc p e.replace e.regex e.caseInsensitive) rules)
    | .fother => (rules, true)

/-- A rule stored by `PDFRedactorTools.add_replacement` when fed directly
from the config file (src/redactor-tools.py lines 45-65): the `find` field
keeps whatever JSON value the entry carried, with no array expansion. -/
structure ToolsCfgRule where
  find : FindVal
  replace : PyStr
  regex : Bool
  caseInsensitive : Bool
deriving DecidableEq, Repr

/-- `PDFRedactorTools.load_config` (src/redactor-tools.py lines 54-65):
appends exactly one rule per entry, passing the entry's raw `find` value
straight through to `add_replacement` — arrays are not expanded. -/
def load_config_tools (entries : List ConfigEntry) (rules : List ToolsCfgRule) :
    List ToolsCfgRule :=
  match entries with
  | [] => rules
  | e :: rest =>
    load_config_tools rest
      (rules ++ [⟨e.find, e.replace, e.regex, e.caseInsensitive⟩])

/-! ### Save policy -/

/-- The keyword arguments of the `Document.save` calls in
`PDFRedactor.redact_pdf` (src/redactor.py lines 283-291). -/
structure SaveOpts where
  deflate : Bool
  garbage : Nat
  clean : Bool
deriving DecidableEq, Repr

/-- The save-option choice of `PDFRedactor.redact_pdf`
(src/redactor.py lines 281-291): if `self.preserve_compression` and the
input was detected as compressed, save with `deflate=True, garbage=4,
clean=True`; otherwise save with `garbage=4, clean=True` (PyMuPDF's
`deflate` defaults to `False`).  `self.compression_level` is in scope in the
method (src/redactor.py line 28) but does not appear in either call, so the
result does not depend on the `level` argument. -/
def savePolicy (preserve_compression uses_compression : Bool)
    (_level : Nat) : SaveOpts :=
  if preserve_compression && uses_compression then
    { deflate := true, garbage := 4, clean := true }
  else
    { deflate := false, garbage := 4, clean := true }

/-! ### Page processing -/

/-- A text span of the structured text extraction
(`page.get_text("dict")`, src/redactor.py lines 229-246).  The geometric and
style attributes are carried as opaque identifiers; only the text takes part
in matching. -/
structure Span where
  text : PyStr
  bbox : Nat
  origin : Nat
  font : PyStr
  size : Nat
  color : Nat
deriving DecidableEq, Repr

/-- The redaction instruction recorded for a changed span
(src/redactor.py lines 236-246): erase `bbox`, then draw `newText` at the
span's origin with the original font name, size and colour. -/
structure RedactionOp where
  bbox : Nat
  origin : Nat
  newText : PyStr
  fontName : PyStr
  fontSize : Nat
  color : Nat
deriving DecidableEq, Repr

/-- Membership of a code point in Python's `str.strip` whitespace set
(ASCII restriction): space, tab, LF, VT, FF, CR. -/
def isPySpace (c : Nat) : Bool :=
  c = 32 || c = 9 || c = 10 || c = 11 || c = 12 || c = 13

/-- Model of Python `str.strip()` (stdlib, ASCII whitespace): drop leading
and trailing whitespace. -/
def pyStrip (t : PyStr) : PyStr :=
  (t.dropWhile isPySpace).reverse.dropWhile isPySpace |>.reverse

/-- The per-span body of the page loop in `PDFRedactor.redact_pdf`
(src/redactor.py lines 229-246): a span whose text strips to empty is
skipped (`continue`) before `process_text` is consulted; otherwise the span
text is processed, and only if the processed text differs is a redaction op
(bbox to erase plus insertion data) recorded. -/
def spanOp (rules : List Rule) (s : Span) : Except Unit (Option RedactionOp) :=
  if pyStrip s.text = [] then .ok none
  else
    (process_text rules s.text).map fun t =>
      if t ≠ s.text then
        some ⟨s.bbox, s.origin, t, s.font, s.size, s.color⟩
      else none

/-- Net effect of `PDFRedactor.redact_pdf`'s redaction on one span: a span
with no op is left untouched; a span with an op has its bbox erased and the
processed text drawn back at its origin (src/redactor.py lines 248-273),
i.e. its text becomes the op's `newText`. -/
def redactSpan (rules : List Rule) (s : Span) : Except Unit Span :=
  (spanOp rules s).map fun
    | none => s
    | some op => { s with text := op.newText }

/-- The span loop over one page of `PDFRedactor.redact_pdf`: any `re.error`
escaping `process_text` aborts the whole page loop (the exception propagates
to the `except` clause of `redact_pdf`). -/
def redactSpans (rules : List Rule) : List Span → Except Unit (List Span)
  | [] => .ok []
  | s :: rest =>
    (redactSpan rules s).bind fun s' =>
      (redactSpans rules rest).map fun rest' => s' :: rest'

/-- The page loop of `PDFRedactor.redact_pdf` (src/redactor.py line 210). -/
def redactPages (rules : List Rule) : List (List Span) → Except Unit (List (List Span))
  | [] => .ok []
  | p :: rest =>
    (redactSpans rules p).bind fun p' =>
      (redactPages rules rest).map fun rest' => p' :: rest'

/-! ### Document pipeline -/

/-- An input PDF file: its raw bytes, its per-page text spans as exposed by
the structured text extraction, and whether `get_pdf_info` detects a
compressed stream object (src/redactor.py lines 104-114: true iff at least
one xref is a stream). -/
structure PdfFile where
  bytes : PyStr
  pages : List (List Span)
  usesCompression : Bool
deriving DecidableEq, Repr

/-- The observable I/O steps of `PDFRedactor.redact_pdf`, in the order the
source performs them (src/redactor.py lines 171-291). -/
inductive Ev where
  | readInfo
  | createTemp
  | decompressTemp
  | copyInput
  | openTemp
  | savePdf
deriving DecidableEq, Repr

/-- The working-copy stage of `PDFRedactor.redact_pdf`
(src/redactor.py lines 179-186): decompression is attempted only when
compression was detected; on decompression failure (`decompress_pdf`
returned `False`, src/redactor.py lines 122-136 — modelled by the external
outcome `decompressOk`) the input is copied unmodified instead, and the run
continues. -/
def makeWorkingCopy (usesCompression decompressOk : Bool) : List Ev :=
  if usesCompression then
    if decompressOk then [.decompressTemp] else [.decompressTemp, .copyInput]
  else [.copyInput]

/-- Model of PyMuPDF `Document.save` (external library): the output bytes
are produced afresh by serializing the in-memory document state under the
given save options.  The concrete encoding chosen here is irrelevant to the
claims, which rely only on the output being this function of the document
state and options rather than the input file's original bytes. -/
def fitzSave (pages : List (List Span)) (opts : SaveOpts) : PyStr :=
  (if opts.deflate then 68 else 78) ::
    (pages.flatten.map fun s => 124 :: s.text).flatten

/-- The `preserve_compression` / `compression_level` state of a
`PDFRedactor` instance (src/redactor.py lines 25-28). -/
structure RedConfig where
  preserve_compression : Bool
  compression_level : Nat
deriving DecidableEq, Repr

/-- `PDFRedactor.redact_pdf` (src/redactor.py lines 162-299): read the PDF
info (opening the input file), create a temporary file, decompress to it or
copy the input to it, open the working copy, process every page's spans, and
save the processed document with the options of `savePolicy`.  Returns the
I/O events in order together with the produced output bytes, or `.error` if
an exception (a `re.error` from an invalid regex rule) escaped the page loop
and was caught by the surrounding `except` (making `redact_pdf` return
`False`).  Note that the save branch runs whether or not any span changed —
there is no copy-through path for unchanged documents in this variant. -/
def redact_pdf (cfg : RedConfig) (rules : List Rule) (doc : PdfFile)
    (decompressOk : Bool) : List Ev × Except Unit PyStr :=
  let evs := Ev.readInfo :: Ev.createTemp ::
    makeWorkingCopy doc.usesCompression decompressOk ++ [Ev.openTemp]
  match redactPages rules doc.pages with
  | .error e => (evs, .error e)
  | .ok pages' =>
    let opts := savePolicy cfg.preserve_compression doc.usesCompression
      cfg.compression_level
    (evs ++ [Ev.savePdf], .ok (fitzSave pages' opts))

/-- An input file as seen by `PDFRedactorTools.redact_pdf`: its raw bytes
and the whole-document text that `pdftotext` extracts from it
(src/redactor-tools.py lines 107-119, modelled as a field since the external
tool's output is a fixed function of the file). -/
structure ToolsDoc where
  bytes : PyStr
  extractedText : PyStr
deriving DecidableEq, Repr

/-- Model of the changed-document path of `PDFRedactorTools.redact_pdf`
(src/redactor-tools.py lines 237-267, external qpdf/ghostscript tools):
decompress, convert to PostScript, substitute text, convert back, linearize.
Only the unchanged-document path matters to the claims; this stands for
whatever bytes the external pipeline produces. -/
def toolsProcessedBytes (rules : List Rule) (d : ToolsDoc) : PyStr :=
  80 :: (pyReplaceRules rules d.extractedText)
where
  /-- The literal part of `process_postscript` (src/redactor-tools.py
  lines 196-204) applied to the extracted text. -/
  pyReplaceRules : List Rule → PyStr → PyStr
    | [], t => t
    | r :: rest, t => pyReplaceRules rest (pyReplace r.find r.replace t)

/-- `PDFRedactorTools.redact_pdf` (src/redactor-tools.py lines 220-279):
extract the document text, run `process_text` on it; if the processed text
equals the extracted text, copy the input file to the output unchanged
(`shutil.copy2`, byte-for-byte); otherwise run the external-tool pipeline.
A `re.error` from an invalid regex propagates (the method has no handler
for it). -/
def redact_pdf_tools (rules : List Rule) (d : ToolsDoc) : Except Unit PyStr :=
  (process_text rules d.extractedText).map fun t =>
    if t = d.extractedText then d.bytes
    else toolsProcessedBytes rules d

/-! ### Predicates used to state the claims -/

/-- Whether a literal rule's find pattern has no occurrence in `t`
(case-insensitively for case-insensitive rules): the condition under which
its branch of `process_text` leaves `t` unchanged. -/
def ruleMisses (r : Rule) (t : PyStr) : Bool :=
  if r.caseInsensitive then (firstMatch (lowerL r.find) (lowerL t)).isNone
  else (firstMatch r.find t).isNone

/-- Whether rule `r`'s find pattern matches somewhere inside the string `s`
(for a literal rule: occurs as a substring, case-insensitively when the rule
is case-insensitive). -/
def matchesIn (r : Rule) (s : PyStr) : Bool :=
  if r.caseInsensitive && !r.regex then
    (firstMatch (lowerL r.find) (lowerL s)).isSome
  else (firstMatch r.find s).isSome

/-- The proviso of the round-trip-stability claim: no rule's replace string
itself matches any rule's find pattern. -/
def selfMatchFree (rules : List Rule) : Bool :=
  rules.all fun r => rules.all fun rf => !(matchesIn rf r.replace)

/-! ### Concrete fixtures for the claim-level theorems -/

/-- A one-span page used in concrete pipeline runs. -/
def sampleSpan : Span :=
  { text := str2l "hi", bbox := 0, origin := 0,
    font := str2l "Helvetica", size := 11, color := 0 }

/-- A concrete uncompressed one-page input document. -/
def sampleDoc : PdfFile :=
  { bytes := [37, 80, 68, 70], pages := [[sampleSpan]], usesCompression := false }

/-- A regex rule whose pattern does not compile (`re.compile("(")` raises). -/
def badRegexRule : Rule :=
  { find := str2l "(", replace := str2l "x", regex := true, caseInsensitive := false }

/-- A two-pattern config entry, as in the repository's own multi-find tests. -/
def multiFindEntry : ConfigEntry :=
  { find := .farr [str2l "John Doe", str2l "Jane Smith"],
    replace := str2l "[NAME REDACTED]", regex := false, caseInsensitive := false }

/-- The rule `aa -> a`, whose replace string contains no occurrence of any
find pattern of its rule set. -/
def shrinkRule : Rule :=
  { find := str2l "aa", replace := str2l "a", regex := false, caseInsensitive := false }

/-- A whitespace-only span. -/
def blankSpan : Span :=
  { text := str2l " ", bbox := 1, origin := 2,
    font := str2l "Courier", size := 10, color := 5 }

/-- A well-formed (string-find) config entry. -/
def goodEntry : ConfigEntry :=
  { find := .fstr (str2l "a"), replace := str2l "R",
    regex := false, caseInsensitive := false }

/-- A config entry whose find value is neither a string nor an array. -/
def badEntry : ConfigEntry :=
  { find := .fother, replace := str2l "R",
    regex := false, caseInsensitive := false }

/-! ### Helper lemmas about the text model -/

theorem lowerL_drop (t : PyStr) (n : Nat) : lowerL (t.drop n) = (lowerL t).drop n :=
  List.map_drop lowerN t n

theorem upperL_drop (t : PyStr) (n : Nat) : upperL (t.drop n) = (upperL t).drop n :=
  List.map_drop upperN t n

theorem lowerL_ne_nil {t : PyStr} (h : t ≠ []) : lowerL t ≠ [] := by
  simpa [lowerL] using h

theorem map_id_forall {f : Nat → Nat} :
    ∀ {l : List Nat}, l.map f = l → ∀ x ∈ l, f x = x := by
  intro l
  induction l with
  | nil => simp
  | cons a as ih =>
    intro h x hx
    rw [List.map_cons, List.cons.injEq] at h
    rcases List.mem_cons.mp hx with hx | hx
    · exact hx ▸ h.1
    · exact ih h.2 x hx

/-- On a code point fixed by `upperN`, agreeing after `lowerN` with a code
point `fc` is the same as being `upperN fc`. -/
theorem lowerN_eq_iff {c fc : Nat} (hc : upperN c = c) :
    lowerN fc = lowerN c ↔ upperN fc = c := by
  simp only [lowerN, upperN] at *
  split_ifs at * <;> omega

/-- Case-insensitive prefix testing against an `upperN`-fixed haystack is
the same as case-sensitive prefix testing with the uppercased needle. -/
theorem isPrefixOf_lower_upper (f : PyStr) :
    ∀ (s : PyStr), (∀ c ∈ s, upperN c = c) →
    (lowerL f).isPrefixOf (lowerL s) = (upperL f).isPrefixOf s := by
  induction f with
  | nil => intro s _; simp [lowerL, upperL, List.isPrefixOf]
  | cons fc f' ih =>
    intro s hs
    cases s with
    | nil => simp [lowerL, upperL, List.isPrefixOf]
    | cons c s' =>
      have hc : upperN c = c := hs c (by simp)
      have hch : (lowerN fc == lowerN c) = (upperN fc == c) := by
        by_cases h : upperN fc = c
        · simp [h, (lowerN_eq_iff hc).mpr h]
        · have h2 : ¬ lowerN fc = lowerN c := fun hh => h ((lowerN_eq_iff hc).mp hh)
          simp [h, h2]
      have ihs := ih s' (fun x hx => hs x (by simp [hx]))
      simp only [lowerL, upperL, List.map_cons] at *
      simp only [List.isPrefixOf, hch, ihs]

/-- Congruence for `firstMatch`: if prefix testing with `p` in the lowered
text agrees with prefix testing with `q` in the original text at every
position, the two searches return the same result. -/
theorem firstMatch_congr (p q : PyStr) (hlen : p.length = q.length) :
    ∀ (t : PyStr),
    (∀ k, p.isPrefixOf (lowerL (t.drop k)) = q.isPrefixOf (t.drop k)) →
    firstMatch p (lowerL t) = firstMatch q t := by
  intro t
  induction t with
  | nil =>
    intro _
    by_cases hp : p = []
    · have hq : q = [] := by
        rw [hp] at hlen
        exact List.length_eq_zero.mp hlen.symm
      simp [hp, hq, lowerL, firstMatch]
    · have hq : q ≠ [] := by
        intro h
        rw [h] at hlen
        exact hp (List.length_eq_zero.mp hlen)
      simp [lowerL, firstMatch, hp, hq]
  | cons c rest ih =>
    intro hmatch
    have h0 := hmatch 0
    simp only [List.drop_zero] at h0
    have htail := ih (fun k => hmatch (k + 1))
    simp only [lowerL, List.map_cons, firstMatch] at *
    rw [h0, htail]

/-- `str.replace` leaves a text with no occurrence of the needle unchanged. -/
theorem pyReplace_of_firstMatch_none (g rep : PyStr) :
    ∀ t, firstMatch g t = none → pyReplace g rep t = t := by
  intro t
  induction t with
  | nil =>
    intro h
    have hg : g ≠ [] := by
      intro hnil
      simp [firstMatch, hnil] at h
    simp [pyReplace, hg]
  | cons c rest ih =>
    intro h
    have hg : g ≠ [] := by
      intro hnil
      simp [firstMatch, hnil, List.isPrefixOf] at h
    have hpre : g.isPrefixOf (c :: rest) = false := by
      by_contra hp
      simp only [Bool.not_eq_false] at hp
      simp [firstMatch, hp] at h
    have hrest : firstMatch g rest = none := by
      rw [firstMatch, hpre] at h
      simp at h
      exact h
    rw [pyReplace, if_neg hg, hpre]
    simp [ih hrest]

/-- `str.replace` on a text whose leftmost needle occurrence is at `i`:
copy the first `i` characters, emit the replacement, and continue just past
the occurrence. -/
theorem pyReplace_of_firstMatch_some (g rep : PyStr) (hg : g ≠ []) :
    ∀ t i, firstMatch g t = some i →
    pyReplace g rep t = t.take i ++ rep ++ pyReplace g rep (t.drop (i + g.length)) := by
  intro t
  induction t with
  | nil =>
    intro i h
    simp [firstMatch, hg] at h
  | cons c rest ih =>
    intro i h
    cases hpre : g.isPrefixOf (c :: rest) with
    | true =>
      have hi : i = 0 := by
        rw [firstMatch, if_pos hpre] at h
        exact (Option.some.injEq _ _ ▸ h).symm
      subst hi
      rw [pyReplace, if_neg hg, hpre]
      simp
    | false =>
      rw [firstMatch, hpre] at h
      simp at h
      obtain ⟨j, hj, hij⟩ := h
      rw [pyReplace, if_neg hg, hpre]
      simp only [Bool.false_eq_true, if_false]
      rw [ih j hj, ← hij]
      have hdrop : (c :: rest).drop (j + 1 + g.length) = rest.drop (j + g.length) := by
        have : j + 1 + g.length = (j + g.length) + 1 := by omega
        rw [this, List.drop_succ_cons]
      rw [hdrop]
      simp [List.take_succ_cons]

/-- Master lemma: the case-insensitive scan loop coincides with `str.replace`
for a needle `g` of the same length as `find`, on any text from a class `C`
(closed under suffixes) on which case-insensitive prefix testing with `find`
agrees with case-sensitive prefix testing with `g`. -/
theorem ciReplace_eq_pyReplace_of (f g rep : PyStr) (hf : f ≠ [])
    (hlen : g.length = f.length) (C : PyStr → Prop)
    (hCdrop : ∀ s n, C s → C (s.drop n))
    (hmatch : ∀ s, C s → (lowerL f).isPrefixOf (lowerL s) = g.isPrefixOf s) :
    ∀ n t, t.length ≤ n → C t → ciReplace f rep t = pyReplace g rep t := by
  have hg : g ≠ [] := by
    intro h
    rw [h] at hlen
    exact hf (List.length_eq_zero.mp hlen.symm)
  have hlenlow : (lowerL f).length = g.length := by
    simp [lowerL, hlen]
  intro n
  induction n with
  | zero =>
    intro t ht hC
    have hnil : t = [] := List.length_eq_zero.mp (Nat.le_zero.mp ht)
    subst hnil
    rw [ciReplace, dif_neg hf]
    split
    next hm => simp [pyReplace, hg]
    next i hm =>
      exfalso
      simp [lowerL, firstMatch, hf] at hm
  | succ n ih =>
    intro t ht hC
    have hfm : firstMatch (lowerL f) (lowerL t) = firstMatch g t :=
      firstMatch_congr (lowerL f) g hlenlow t
        (fun k => hmatch (t.drop k) (hCdrop t k hC))
    rw [ciReplace, dif_neg hf]
    split
    next hm =>
      exact (pyReplace_of_firstMatch_none g rep t (hfm ▸ hm)).symm
    next i hm =>
      have hsome : firstMatch g t = some i := hfm ▸ hm
      rw [pyReplace_of_firstMatch_some g rep hg t i hsome]
      have htne : t ≠ [] := by
        intro hnil
        rw [hnil] at hm
        simp [lowerL, firstMatch, hf] at hm
      have hrec : ciReplace f rep (t.drop (i + f.length)) =
          pyReplace g rep (t.drop (i + g.length)) := by
        rw [hlen]
        apply ih
        · have h1 : 0 < f.length := List.length_pos.mpr hf
          have h2 : 0 < t.length := List.length_pos.mpr htne
          simp [List.length_drop]
          omega
        · exact hCdrop t (i + f.length) hC
      rw [hrec]

/-- On an all-lowercase text (a fixed point of `lowerL`), the
case-insensitive loop equals `str.replace` with the lowercased needle. -/
theorem ciReplace_eq_pyReplace_lower (f rep t : PyStr) (hf : f ≠ [])
    (ht : lowerL t = t) : ciReplace f rep t = pyReplace (lowerL f) rep t :=
  ciReplace_eq_pyReplace_of f (lowerL f) rep hf (by simp [lowerL])
    (fun s => lowerL s = s)
    (fun s n hs => by show lowerL (s.drop n) = s.drop n; rw [lowerL_drop]; exact congrArg (List.drop n) hs)
    (fun s hs => by show (lowerL f).isPrefixOf (lowerL s) = (lowerL f).isPrefixOf s; rw [show lowerL s = s from hs])
    t.length t le_rfl ht

/-- On an all-uppercase text (a fixed point of `upperL`), the
case-insensitive loop equals `str.replace` with the uppercased needle. -/
theorem ciReplace_eq_pyReplace_upper (f rep t : PyStr) (hf : f ≠ [])
    (ht : upperL t = t) : ciReplace f rep t = pyReplace (upperL f) rep t :=
  ciReplace_eq_pyReplace_of f (upperL f) rep hf (by simp [upperL])
    (fun s => upperL s = s)
    (fun s n hs => by show upperL (s.drop n) = s.drop n; rw [upperL_drop]; exact congrArg (List.drop n) hs)
    (fun s hs => isPrefixOf_lower_upper f s (map_id_forall hs))
    t.length t le_rfl ht

/-! ### No-occurrence stability -/

theorem ciReplace_of_firstMatch_none (f rep t : PyStr)
    (h : firstMatch (lowerL f) (lowerL t) = none) : ciReplace f rep t = t := by
  by_cases hf : f = []
  · rw [ciReplace, dif_pos hf]
  · rw [ciReplace, dif_neg hf]
    split
    next => rfl
    next i hm =>
      rw [h] at hm
      simp at hm

theorem applyRule_of_misses (r : Rule) (t : PyStr) (hreg : r.regex = false)
    (hm : ruleMisses r t = true) : applyRule r t = .ok t := by
  rw [applyRule, hreg]
  simp only [Bool.false_eq_true, if_false]
  by_cases hci : r.caseInsensitive = true
  · rw [ruleMisses, if_pos hci, Option.isNone_iff_eq_none] at hm
    rw [if_pos hci, ciReplace_of_firstMatch_none r.find r.replace t hm]
  · rw [ruleMisses, if_neg hci, Option.isNone_iff_eq_none] at hm
    rw [if_neg hci, pyReplace_of_firstMatch_none r.find r.replace t hm]

theorem process_text_of_misses (t : PyStr) :
    ∀ rules : List Rule, (∀ r ∈ rules, r.regex = false) →
    (∀ r ∈ rules, ruleMisses r t = true) → process_text rules t = .ok t := by
  intro rules
  induction rules with
  | nil => intro _ _; rfl
  | cons r rest ih =>
    intro hreg hm
    rw [process_text, applyRule_of_misses r t (hreg r (by simp)) (hm r (by simp))]
    have := ih (fun x hx => hreg x (by simp [hx])) (fun x hx => hm x (by simp [hx]))
    simpa [Except.bind] using this

/-! ### Error propagation through the page loop -/

theorem redactSpan_error_of_regex_invalid (find rep : PyStr) (ci : Bool)
    (hbad : regexValid find = false) (s : Span) (hs : pyStrip s.text ≠ []) :
    redactSpan [⟨find, rep, true, ci⟩] s = .error () := by
  simp [redactSpan, spanOp, hs, process_text, applyRule, hbad, Except.bind, Except.map]

theorem redactSpans_error (rules : List Rule) :
    ∀ spans : List Span, (∃ s ∈ spans, redactSpan rules s = .error ()) →
    redactSpans rules spans = .error () := by
  intro spans
  induction spans with
  | nil => intro h; simp at h
  | cons s rest ih =>
    intro h
    rw [redactSpans]
    cases hs : redactSpan rules s with
    | error e =>
      cases e
      simp [Except.bind]
    | ok s' =>
      rcases h with ⟨x, hx, hxe⟩
      rcases List.mem_cons.mp hx with rfl | hx2
      · rw [hs] at hxe
        cases hxe
      · have hrest := ih ⟨x, hx2, hxe⟩
        simp [Except.bind, hrest, Except.map]

theorem redactPages_error (rules : List Rule) :
    ∀ pages : List (List Span), (∃ p ∈ pages, redactSpans rules p = .error ()) →
    redactPages rules pages = .error () := by
  intro pages
  induction pages with
  | nil => intro h; simp at h
  | cons p rest ih =>
    intro h
    rw [redactPages]
    cases hp : redactSpans rules p with
    | error e =>
      cases e
      simp [Except.bind]
    | ok p' =>
      rcases h with ⟨x, hx, hxe⟩
      rcases List.mem_cons.mp hx with rfl | hx2
      · rw [hp] at hxe
        cases hxe
      · have hrest := ih ⟨x, hx2, hxe⟩
        simp [Except.bind, hrest, Except.map]

/-- `process_text` peels rules off the front one at a time. -/
theorem process_text_cons (r : Rule) (rules : List Rule) (t : PyStr) :
    process_text (r :: rules) t = (applyRule r t).bind (process_text rules) := rfl

/-- A rule appended at the end of the list runs last, on the whole output of
the earlier rules. -/
theorem process_text_append_last (r : Rule) (t : PyStr) :
    ∀ rules : List Rule,
    process_text (rules ++ [r]) t = (process_text rules t).bind (applyRule r) := by
  intro rules
  induction rules generalizing t with
  | nil =>
    simp only [List.nil_append, process_text]
    cases h : applyRule r t <;> simp [Except.bind, h]
  | cons r0 rest ih =>
    simp only [List.cons_append, process_text]
    cases applyRule r0 t with
    | error e => simp [Except.bind]
    | ok t' => simp [Except.bind, ih t']

/-! ### Helper lemmas about config loading -/

theorem foldl_add_replacement (e : ConfigEntry) (xs : List PyStr) :
    ∀ acc : List Rule,
    xs.foldl (fun acc p => add_replacement acc p e.replace e.regex e.caseInsensitive) acc =
      acc ++ xs.map fun p => ⟨p, e.replace, e.regex, e.caseInsensitive⟩ := by
  induction xs with
  | nil => intro acc; simp
  | cons x xs ih =>
    intro acc
    simp only [List.foldl_cons, List.map_cons]
    rw [ih (add_replacement acc x e.replace e.regex e.caseInsensitive)]
    simp [add_replacement]

theorem load_config_good_entry (e : ConfigEntry) (he : e.find ≠ .fother)
    (rest : List ConfigEntry) (rules0 : List Rule) :
    load_config (e :: rest) rules0 = load_config rest (rules0 ++ entryRules e) := by
  cases hf : e.find with
  | fstr s => simp [load_config, hf, entryRules, add_replacement]
  | farr xs => simp [load_config, hf, entryRules, foldl_add_replacement]
  | fother => exact absurd hf he

/-! ### Claim-level theorems -/

/-- C4: PDFRedactor.load_config expands a two-element array `find` into
exactly two rules, one per element in array order, each sharing the entry's
replace/regex/caseInsensitive — while PDFRedactorTools.load_config, fed the
same entry, appends a single rule whose find is the whole array (no
expansion), contradicting the claim (and the repository's own multi-find
tests) for that variant. -/
theorem C4_load_eval :
    load_config [multiFindEntry] [] =
      ([⟨str2l "John Doe", str2l "[NAME REDACTED]", false, false⟩,
        ⟨str2l "Jane Smith", str2l "[NAME REDACTED]", false, false⟩], false)
    ∧ load_config_tools [multiFindEntry] [] =
        [⟨.farr [str2l "John Doe", str2l "Jane Smith"],
          str2l "[NAME REDACTED]", false, false⟩]
    ∧ (load_config_tools [multiFindEntry] []).length = 1 :=
  ⟨rfl, rfl, rfl⟩

/-- C6: the save branch of PDFRedactor.redact_pdf never consults the
configured compression level — the options are identical for level 0 and
level 9, and in particular with preserve_compression on a compressed input
and level 0 ("no compression") the document is still saved with
deflate=True.  The remaining parts of the claim hold: deflate is enabled
exactly when preserve_compression and input compression are both set, and
cleanup (garbage=4, clean=True) happens in both branches. -/
theorem C6_save_eval :
    savePolicy true true 0 = { deflate := true, garbage := 4, clean := true }
    ∧ (∀ p u l, savePolicy p u l = savePolicy p u 9)
    ∧ (∀ p u l, (savePolicy p u l).garbage = 4 ∧ (savePolicy p u l).clean = true
        ∧ (savePolicy p u l).deflate = (p && u)) := by
  refine ⟨rfl, fun p u l => rfl, fun p u l => ?_⟩
  cases p <;> cases u <;> exact ⟨rfl, rfl, rfl⟩

/-- C7: process_text applies the rules strictly in the order they were
added — peeling the first rule off composes its application with the rest,
and a rule appended last runs on the output of all earlier rules (sequential
composition); the concrete scenario replaces "John Doe" with "[REDACTED]"
in "Hello John Doe and Jane Smith". -/
theorem C7_sequential :
    (∀ (r : Rule) (rules : List Rule) (t : PyStr),
      process_text (r :: rules) t = (applyRule r t).bind (process_text rules))
    ∧ (∀ (rules : List Rule) (r : Rule) (t : PyStr),
      process_text (rules ++ [r]) t = (process_text rules t).bind (applyRule r))
    ∧ process_text [⟨str2l "John Doe", str2l "[REDACTED]", false, false⟩]
        (str2l "Hello John Doe and Jane Smith") =
      .ok (str2l "Hello [REDACTED] and Jane Smith") := by
  refine ⟨process_text_cons, fun rules r t => process_text_append_last r t rules, ?_⟩
  simp [process_text, applyRule, pyReplace, str2l, List.isPrefixOf, Except.bind]

/-- C8: in PDFRedactor.redact_pdf, decompression of the working copy is
attempted exactly when the input was detected as compressed; the plain copy
runs when the input was not compressed or when decompression failed
(the fallback); and the run's outcome does not depend on whether
decompression succeeded (a decompression failure is not a run failure). -/
theorem C8_decompress_fallback (cfg : RedConfig) (rules : List Rule)
    (doc : PdfFile) (ok : Bool) :
    (Ev.decompressTemp ∈ (redact_pdf cfg rules doc ok).1 ↔
      doc.usesCompression = true)
    ∧ (Ev.copyInput ∈ (redact_pdf cfg rules doc ok).1 ↔
      (doc.usesCompression = false ∨ ok = false))
    ∧ (redact_pdf cfg rules doc false).2 = (redact_pdf cfg rules doc true).2 := by
  cases h : redactPages rules doc.pages <;>
    cases hu : doc.usesCompression <;> cases ok <;>
      simp [redact_pdf, makeWorkingCopy, h, hu]

/-- C9: a span whose raw text is empty or whitespace-only is skipped before
the Text Matcher is consulted: no redaction op is created for it and it is
left unchanged, whatever the rule set (even one whose find pattern would
change that text). -/
theorem C9_whitespace_skip (rules : List Rule) (s : Span)
    (hws : pyStrip s.text = []) :
    spanOp rules s = .ok none ∧ redactSpan rules s = .ok s := by
  constructor
  · simp [spanOp, hws]
  · simp [redactSpan, spanOp, hws, Except.map]

theorem C9_whitespace_skip_witness :
    pyStrip blankSpan.text = []
    ∧ (spanOp [⟨str2l " ", str2l "X", false, false⟩] blankSpan = .ok none
       ∧ redactSpan [⟨str2l " ", str2l "X", false, false⟩] blankSpan = .ok blankSpan) :=
  ⟨by decide, C9_whitespace_skip [⟨str2l " ", str2l "X", false, false⟩] blankSpan (by decide)⟩

/-- C10: a replacements entry whose find value is neither a string nor an
array makes load_config raise ValueError (the `true` flag); the resulting
rule list holds exactly the rules of the preceding entries — no rule is
appended for the offending entry (nor for any later one). -/
theorem C10_value_error (pre post : List ConfigEntry) (e : ConfigEntry)
    (hbad : e.find = .fother) (hpre : ∀ x ∈ pre, x.find ≠ .fother)
    (rules0 : List Rule) :
    load_config (pre ++ e :: post) rules0 =
      (rules0 ++ (pre.map entryRules).flatten, true) := by
  induction pre generalizing rules0 with
  | nil => simp [load_config, hbad]
  | cons e0 pre' ih =>
    have h0 : e0.find ≠ .fother := hpre e0 (by simp)
    rw [List.cons_append, load_config_good_entry e0 h0,
      ih (fun x hx => hpre x (by simp [hx]))]
    simp [List.append_assoc]

theorem C10_value_error_witness :
    badEntry.find = .fother ∧ (∀ x ∈ [goodEntry], x.find ≠ .fother)
    ∧ load_config ([goodEntry] ++ badEntry :: []) [] =
        ([] ++ ([goodEntry].map entryRules).flatten, true) :=
  ⟨rfl, by decide, C10_value_error [goodEntry] [] badEntry rfl (by decide) []⟩

/-- C1 (counterexample): on a concrete uncompressed document whose single
span is changed by no rule (the rule set is empty), PDFRedactor.redact_pdf
still produces its output by re-saving the working document through the
library (with garbage collection and cleaning) — the output bytes are the
serializer's output, which differs from the input file's bytes; no
byte-for-byte copy path exists in this variant. -/
theorem C1_counterexample :
    process_text [] sampleSpan.text = .ok sampleSpan.text
    ∧ (redact_pdf ⟨true, 9⟩ [] sampleDoc true).2 =
        .ok (fitzSave sampleDoc.pages { deflate := false, garbage := 4, clean := true })
    ∧ fitzSave sampleDoc.pages { deflate := false, garbage := 4, clean := true } ≠
        sampleDoc.bytes :=
  ⟨rfl, rfl, by decide⟩

/-- C1 (amended): when no text changes, the external-tools variant
(PDFRedactorTools.redact_pdf) copies the input byte-for-byte to the output;
the PyMuPDF variant (PDFRedactor.redact_pdf) instead always re-saves the
processed document through the library, so its output is the serialization
of the document state under the save policy, not the input file's bytes. -/
theorem C1_amended (rules : List Rule) (d : ToolsDoc) (cfg : RedConfig)
    (doc : PdfFile) (ok : Bool)
    (htools : process_text rules d.extractedText = .ok d.extractedText)
    (hpy : redactPages rules doc.pages = .ok doc.pages) :
    redact_pdf_tools rules d = .ok d.bytes
    ∧ (redact_pdf cfg rules doc ok).2 =
        .ok (fitzSave doc.pages
          (savePolicy cfg.preserve_compression doc.usesCompression
            cfg.compression_level)) := by
  constructor
  · rw [redact_pdf_tools, htools]
    simp [Except.map]
  · simp [redact_pdf, hpy]

theorem C1_amended_witness :
    process_text [] (str2l "T") = .ok (str2l "T")
    ∧ redactPages [] sampleDoc.pages = .ok sampleDoc.pages
    ∧ (redact_pdf_tools [] ⟨[1, 2], str2l "T"⟩ = .ok [1, 2]
       ∧ (redact_pdf ⟨true, 9⟩ [] sampleDoc true).2 =
           .ok (fitzSave sampleDoc.pages (savePolicy true false 9))) :=
  ⟨rfl, rfl, C1_amended [] ⟨[1, 2], str2l "T"⟩ ⟨true, 9⟩ sampleDoc true rfl rfl⟩

/-- C2: for a non-empty literal find pattern, case-insensitive replacement
on an all-lowercase text equals case-sensitive replacement with the
lowercased find, and on an all-uppercase text equals case-sensitive
replacement with the uppercased find (text already all one case). -/
theorem C2_case_insensitive (f rep t : PyStr) (hf : f ≠ []) :
    (lowerL t = t →
      process_text [⟨f, rep, false, true⟩] t =
        process_text [⟨lowerL f, rep, false, false⟩] t)
    ∧ (upperL t = t →
      process_text [⟨f, rep, false, true⟩] t =
        process_text [⟨upperL f, rep, false, false⟩] t) := by
  constructor
  · intro ht
    simp [process_text, applyRule, Except.bind,
      ciReplace_eq_pyReplace_lower f rep t hf ht]
  · intro ht
    simp [process_text, applyRule, Except.bind,
      ciReplace_eq_pyReplace_upper f rep t hf ht]

theorem C2_case_insensitive_witness :
    (str2l "Ab" ≠ [] ∧ lowerL (str2l "ab ab x") = str2l "ab ab x")
    ∧ process_text [⟨str2l "Ab", str2l "Y", false, true⟩] (str2l "ab ab x") =
        process_text [⟨lowerL (str2l "Ab"), str2l "Y", false, false⟩] (str2l "ab ab x") :=
  ⟨⟨by decide, by decide⟩,
    (C2_case_insensitive (str2l "Ab") (str2l "Y") (str2l "ab ab x") (by decide)).1
      (by decide)⟩

/-- C3 (counterexample): the invalid regex pattern "(" is appended by
add_replacement with no error, and the run with that rule on a concrete
document does not fail before document I/O: the input is read and the
working copy is opened (readInfo among the performed events) before the
failure surfaces from process_text during page processing. -/
theorem C3_counterexample :
    add_replacement [] (str2l "(") (str2l "x") true false = [badRegexRule]
    ∧ (redact_pdf ⟨true, 9⟩ [badRegexRule] sampleDoc true).2 = .error ()
    ∧ Ev.readInfo ∈ (redact_pdf ⟨true, 9⟩ [badRegexRule] sampleDoc true).1 :=
  ⟨rfl, rfl, by decide⟩

/-- C3 (amended): an invalid regex pattern is accepted unvalidated at
rule-loading time (add_replacement simply appends it); the failure occurs
when process_text first applies the rule to a non-whitespace span during
page processing — after document I/O has begun — and redact_pdf reports the
file's run as failed. -/
theorem C3_amended (rules0 : List Rule) (find rep : PyStr) (ci : Bool)
    (cfg : RedConfig) (doc : PdfFile) (ok : Bool)
    (hbad : regexValid find = false)
    (hspan : ∃ p ∈ doc.pages, ∃ s ∈ p, pyStrip s.text ≠ []) :
    add_replacement rules0 find rep true ci = rules0 ++ [⟨find, rep, true, ci⟩]
    ∧ (redact_pdf cfg [⟨find, rep, true, ci⟩] doc ok).2 = .error ()
    ∧ Ev.readInfo ∈ (redact_pdf cfg [⟨find, rep, true, ci⟩] doc ok).1 := by
  refine ⟨rfl, ?_, ?_⟩
  · obtain ⟨p, hp, s, hsin, hs⟩ := hspan
    have herr : redactPages [⟨find, rep, true, ci⟩] doc.pages = .error () :=
      redactPages_error _ doc.pages
        ⟨p, hp, redactSpans_error _ p
          ⟨s, hsin, redactSpan_error_of_regex_invalid find rep ci hbad s hs⟩⟩
    simp [redact_pdf, herr]
  · cases h : redactPages [⟨find, rep, true, ci⟩] doc.pages <;>
      simp [redact_pdf, h]

theorem C3_amended_witness :
    regexValid (str2l "(") = false
    ∧ (∃ p ∈ sampleDoc.pages, ∃ s ∈ p, pyStrip s.text ≠ [])
    ∧ (add_replacement [] (str2l "(") (str2l "y") true false =
        [] ++ [⟨str2l "(", str2l "y", true, false⟩]
       ∧ (redact_pdf ⟨false, 0⟩ [⟨str2l "(", str2l "y", true, false⟩] sampleDoc false).2 =
           .error ()
       ∧ Ev.readInfo ∈
           (redact_pdf ⟨false, 0⟩ [⟨str2l "(", str2l "y", true, false⟩] sampleDoc false).1) :=
  ⟨by decide, by decide,
    C3_amended [] (str2l "(") (str2l "y") false ⟨false, 0⟩ sampleDoc false
      (by decide) (by decide)⟩

/-- C5 (counterexample): the rule set `[aa -> a]` satisfies the claim's
proviso (the replace string "a" contains no occurrence of the find pattern
"aa"), yet process_text is not idempotent on the input "aaa": the first
application yields "aa", and the second application changes it again to
"a" — replacement can create a fresh occurrence at the seam between a
replacement and the surrounding text. -/
theorem C5_counterexample :
    selfMatchFree [shrinkRule] = true
    ∧ process_text [shrinkRule] (str2l "aaa") = .ok (str2l "aa")
    ∧ process_text [shrinkRule] (str2l "aa") = .ok (str2l "a")
    ∧ (str2l "a" : PyStr) ≠ str2l "aa" := by
  refine ⟨by decide, ?_, ?_, by decide⟩
  · simp [process_text, applyRule, shrinkRule, pyReplace, str2l,
      List.isPrefixOf, Except.bind]
  · simp [process_text, applyRule, shrinkRule, pyReplace, str2l,
      List.isPrefixOf, Except.bind]

/-- C5 (amended): for a rule set of literal rules, a second application of
process_text returns the already-processed text unchanged provided no
rule's find pattern occurs anywhere in that processed text
(case-insensitively for case-insensitive rules) — the static
no-self-match condition on the replace strings alone is not sufficient. -/
theorem C5_amended (rules : List Rule) (t0 t1 : PyStr)
    (hlit : ∀ r ∈ rules, r.regex = false)
    (h1 : process_text rules t0 = .ok t1)
    (hmiss : ∀ r ∈ rules, ruleMisses r t1 = true) :
    process_text rules t1 = .ok t1 :=
  process_text_of_misses t1 rules hlit hmiss

theorem C5_amended_witness :
    (∀ r ∈ [⟨str2l "ab", str2l "X", false, false⟩], Rule.regex r = false)
    ∧ process_text [⟨str2l "ab", str2l "X", false, false⟩] (str2l "ab") = .ok (str2l "X")
    ∧ (∀ r ∈ [⟨str2l "ab", str2l "X", false, false⟩], ruleMisses r (str2l "X") = true)
    ∧ process_text [⟨str2l "ab", str2l "X", false, false⟩] (str2l "X") = .ok (str2l "X") :=
  ⟨by decide,
   by simp [process_text, applyRule, pyReplace, str2l, List.isPrefixOf, Except.bind],
   by decide,
   C5_amended [⟨str2l "ab", str2l "X", false, false⟩] (str2l "ab") (str2l "X")
     (by decide)
     (by simp [process_text, applyRule, pyReplace, str2l, List.isPrefixOf, Except.bind])
     (by decide)⟩

end PDFRedactor
